import Mathlib

/-!
Verification development for the Backend-Smartai repository.

The repository holds three successive variants of one Express `server.js`:

* variant 1: `src/server.js`;
* variant 2: `src/unnamed/part_000`, lines 1-157;
* variant 3: `src/unnamed/part_000`, lines 158-366.

Each variant configures CORS from an environment-driven allow list, lazily
connects to MongoDB behind a module-global promise, mounts route modules and
registers not-found / error middleware.  The definitions below embed, for each
variant, the environment handling, the CORS origin callback, the allowlist
construction (including variant 3's `normalizeOriginEntry`), the
memoized `connectDB`, and the ordered route registration table.

JavaScript strings are modelled as Lean `String`s (with `List Char` helpers for
the character-level operations `trim`, trailing-slash stripping, `toLowerCase`
and the two regular-expression tests, whose anchored patterns are expanded into
prefix/suffix/character conditions).  `process.env` lookups are `Option String`
(`none` = unset variable), and JavaScript truthiness on strings is explicit:
`undefined` and `""` are falsy.
-/

/-- The environment variables read by the three server variants.
`none` models an unset variable. -/
structure Env where
  CLIENT_URL : Option String
  FRONTEND_URL : Option String
  VERCEL_URL : Option String
  ALLOW_VERCEL_PREVIEWS : Option String
  MONGODB_URI : Option String
  MONGO_URI : Option String
deriving DecidableEq

/-- JavaScript truthiness of a possibly-undefined string:
`undefined` and the empty string are falsy, every other string is truthy. -/
def jsTruthy : Option String → Bool
  | none => false
  | some s => !(s == "")

/-- JavaScript `a || b` on possibly-undefined strings: `a` when truthy, else `b`. -/
def jsOrStr (a b : Option String) : Option String :=
  if jsTruthy a then a else b

/-- `Array.prototype.filter(Boolean)` on a list of possibly-undefined strings:
drops `undefined`/`null` entries and empty strings, keeping order. -/
def filterBoolean : List (Option String) → List String
  | [] => []
  | none :: rest => filterBoolean rest
  | some s :: rest => if s = "" then filterBoolean rest else s :: filterBoolean rest

/-- Variant 1 allow list (`src/server.js` lines 26-32):
`[CLIENT_URL, FRONTEND_URL, hardcoded production URL, two localhost
URLs].filter(Boolean)`. -/
def allowedOrigins1 (env : Env) : List String :=
  filterBoolean
    [env.CLIENT_URL, env.FRONTEND_URL,
     some "https://frontend-smartai-hydx.vercel.app",
     some "http://localhost:5173",
     some "http://localhost:8080"]

/-- Variant 2 allow list (`src/unnamed/part_000` lines 28-36): variant 1's list
plus the two `127.0.0.1` URLs, then `.filter(Boolean)`. -/
def allowedOrigins2 (env : Env) : List String :=
  filterBoolean
    [env.CLIENT_URL, env.FRONTEND_URL,
     some "https://frontend-smartai-hydx.vercel.app",
     some "http://localhost:5173",
     some "http://localhost:8080",
     some "http://127.0.0.1:5173",
     some "http://127.0.0.1:8080"]

/-- Result of the `cors` dynamic origin callback: `callback(null, true)` is
`allow`, `callback(new Error(msg))` is `deny msg`. -/
inductive CorsDecision
  | allow
  | deny (msg : String)
deriving DecidableEq

/-- The character set JavaScript `String.prototype.trim` strips: ECMAScript
WhiteSpace (tab, vertical tab, form feed, space, no-break space, zero-width
no-break space and the Unicode space separators) together with the
LineTerminator characters. -/
def jsTrimWhitespace (c : Char) : Bool :=
  c == '\t' || c == '\n' || c == '\u000B' || c == '\u000C' || c == '\r'
    || c == ' ' || c == '\u00A0' || c == '\u1680'
    || (0x2000 ≤ c.toNat && c.toNat ≤ 0x200A)
    || c == '\u2028' || c == '\u2029' || c == '\u202F' || c == '\u205F'
    || c == '\u3000' || c == '\uFEFF'

/-- Characters on both ends removed by JavaScript `String.prototype.trim`. -/
def trimChars (l : List Char) : List Char :=
  ((l.dropWhile jsTrimWhitespace).reverse.dropWhile jsTrimWhitespace).reverse

/-- The `replace(/\/+$/, '')` step of `normalizeOriginEntry`: remove every
trailing `/`. -/
def stripTrailingSlashes (l : List Char) : List Char :=
  (l.reverse.dropWhile (fun c => c == '/')).reverse

/-- The anchored test `/^https?:\/\//i` of `normalizeOriginEntry` (line 189 of
`src/unnamed/part_000`): case-insensitively, the string starts with `http://`
or `https://`. -/
def regexHttpTest (l : List Char) : Bool :=
  "http://".data.isPrefixOf (l.map Char.toLower)
    || "https://".data.isPrefixOf (l.map Char.toLower)

/-- Core of `normalizeOriginEntry` on the characters of a defined entry
(`src/unnamed/part_000` lines 186-191): falsy (empty) entries become `null`;
otherwise trim, strip trailing slashes, keep entries already carrying an
`http(s)://` scheme and prefix `https://` onto the rest. -/
def normCore (l : List Char) : Option (List Char) :=
  if l = [] then none
  else if regexHttpTest (stripTrailingSlashes (trimChars l)) = true then
    some (stripTrailingSlashes (trimChars l))
  else some ("https://".data ++ stripTrailingSlashes (trimChars l))

/-- `normalizeOriginEntry` of variant 3 (`src/unnamed/part_000` lines 186-191),
lifted to possibly-undefined entries: `undefined` and `""` (both falsy) map to
`null`. -/
def normalizeOriginEntry (entry : Option String) : Option String :=
  match entry with
  | none => none
  | some s => (normCore s.data).map String.mk

/-- Helper for `Array.from(new Set(list))`: keep the first occurrence of each
element, in insertion order; `seen` holds the elements already emitted. -/
def dedupAux : List String → List String → List String
  | [], _ => []
  | a :: l, seen =>
    if a ∈ seen then dedupAux l seen else a :: dedupAux l (a :: seen)

/-- `Array.from(new Set(list))`: JavaScript `Set` insertion-order
deduplication. -/
def dedupFirst (l : List String) : List String := dedupAux l []

/-- Variant 3 raw allow list (`src/unnamed/part_000` lines 194-203): four
localhost URLs, two production URLs, then `CLIENT_URL` and `VERCEL_URL`. -/
def rawAllowlist (env : Env) : List (Option String) :=
  [some "http://localhost:5173",
   some "http://localhost:8080",
   some "http://127.0.0.1:5173",
   some "http://127.0.0.1:8080",
   some "https://frontend-smartai-hydx.vercel.app",
   some "https://smartai-ten.vercel.app",
   env.CLIENT_URL,
   env.VERCEL_URL]

/-- Variant 3 allow list (`src/unnamed/part_000` lines 209-213):
`Array.from(new Set(rawAllowlist.map(normalizeOriginEntry).filter(Boolean)))`. -/
def allowedOrigins3 (env : Env) : List String :=
  dedupFirst (filterBoolean ((rawAllowlist env).map normalizeOriginEntry))

/-- JavaScript `String.prototype.toLowerCase`, modelled on ASCII letters. -/
def jsToLower (s : String) : String :=
  String.mk (s.data.map Char.toLower)

/-- Variant 3 flag (`src/unnamed/part_000` line 207):
`String(process.env.ALLOW_VERCEL_PREVIEWS || '').toLowerCase() === 'true'`. -/
def allowVercelPreviews (env : Env) : Bool :=
  jsToLower ((env.ALLOW_VERCEL_PREVIEWS).getD "") == "true"

/-- Characters matched by an unflagged `.` in a JavaScript regular expression
(anything but a line terminator). -/
def jsDotChar (c : Char) : Bool :=
  !(c == '\n' || c == '\r' || c == '\u2028' || c == '\u2029')

/-- The anchored test `/^https:\/\/.+\.vercel\.app$/i` of variant 3
(`src/unnamed/part_000` line 236): case-insensitively, `https://`, then at
least one non-line-terminator character, then `.vercel.app`. -/
def vercelPreviewTest (o : String) : Bool :=
  let t := o.data.map Char.toLower
  "https://".data.isPrefixOf t
    && ".vercel.app".data.isSuffixOf t
    && decide (20 ≤ t.length)
    && ((t.drop 8).take (t.length - 19)).all jsDotChar

/-- Variant 1 CORS origin callback (`src/server.js` lines 35-40): allow a falsy
(absent or empty) origin, allow members of `allowedOrigins1`, otherwise fail
with `Error("Not allowed by CORS")`. -/
def originFn1 (env : Env) (origin : Option String) : CorsDecision :=
  match origin with
  | none => CorsDecision.allow
  | some o =>
    if o = "" then CorsDecision.allow
    else if o ∈ allowedOrigins1 env then CorsDecision.allow
    else CorsDecision.deny "Not allowed by CORS"

/-- Variant 2 CORS origin callback (`src/unnamed/part_000` lines 40-46), same
logic over `allowedOrigins2`. -/
def originFn2 (env : Env) (origin : Option String) : CorsDecision :=
  match origin with
  | none => CorsDecision.allow
  | some o =>
    if o = "" then CorsDecision.allow
    else if o ∈ allowedOrigins2 env then CorsDecision.allow
    else CorsDecision.deny "Not allowed by CORS"

/-- Variant 3 CORS origin callback (`src/unnamed/part_000` lines 228-244):
allow a falsy origin, allow members of `allowedOrigins3`, allow
`https://*.vercel.app` origins when `allowVercelPreviews` is set, otherwise
fail with `Error("Not allowed by CORS")`. -/
def originFn3 (env : Env) (origin : Option String) : CorsDecision :=
  match origin with
  | none => CorsDecision.allow
  | some o =>
    if o = "" then CorsDecision.allow
    else if o ∈ allowedOrigins3 env then CorsDecision.allow
    else if (allowVercelPreviews env && vercelPreviewTest o) = true then
      CorsDecision.allow
    else CorsDecision.deny "Not allowed by CORS"

/-- Variant 1 fallback middleware header (`src/server.js` lines 47-54): the
`Access-Control-Allow-Origin` value it sets, namely the request origin exactly
when that origin is truthy and in `allowedOrigins1`. -/
def fallbackAllowOriginHeader1 (env : Env) (origin : Option String) : Option String :=
  match origin with
  | none => none
  | some o =>
    if o = "" then none
    else if o ∈ allowedOrigins1 env then some o
    else none

/-- Variant 2 fallback middleware header (`src/unnamed/part_000` lines 59-66),
same logic over `allowedOrigins2`. -/
def fallbackAllowOriginHeader2 (env : Env) (origin : Option String) : Option String :=
  match origin with
  | none => none
  | some o =>
    if o = "" then none
    else if o ∈ allowedOrigins2 env then some o
    else none

/-- Reflect behaviour of the third-party `cors` middleware package for a
dynamic origin callback: when the callback allows a present request origin,
the package echoes that origin in `Access-Control-Allow-Origin` (it never
emits a wildcard for a dynamic callback); on denial or an absent origin it
sets no such header. -/
def corsPkgAllowOriginHeader (d : CorsDecision) (origin : Option String) : Option String :=
  match d, origin with
  | CorsDecision.allow, some o => some o
  | _, _ => none

/-- Variant 1 MongoDB URI (`src/server.js` line 65): `process.env.MONGODB_URI`,
with no fallback. -/
def mongoUri1 (env : Env) : Option String :=
  env.MONGODB_URI

/-- Variants 2 and 3 MongoDB URI (`src/unnamed/part_000` lines 81 and 284):
`process.env.MONGODB_URI || process.env.MONGO_URI ||
'mongodb://localhost:27017/quizapp'`. -/
def mongoUri23 (env : Env) : Option String :=
  jsOrStr (jsOrStr env.MONGODB_URI env.MONGO_URI) (some "mongodb://localhost:27017/quizapp")

/-- The environment with every variable unset. -/
def envEmpty : Env := ⟨none, none, none, none, none, none⟩

/-- Module-level mutable state of the lazily-memoized database connection:
`readyState` mirrors `mongoose.connection.readyState` (1 = connected) and
`connPromise` the module-global promise (`global._connPromise` in variant 1,
`global._mongoPromise` in variants 2 and 3), recorded as `none` while unset
and otherwise as the settled outcome the promise caches. -/
structure ConnState where
  readyState : Nat
  connPromise : Option (Except String Unit)

/-- Variant 1 `connectDB` (`src/server.js` lines 67-76), run to completion on
one sequential call.  `outcome` is the settled result of the single
`mongoose.connect(...).then(...)` chain the process can ever start.  Returns
the call's result, the new state, and whether this call invoked
`mongoose.connect`.  On a fulfilled connect mongoose is connected
(`readyState = 1`); on a rejected one it is not (`readyState = 0`), and the
rejection stays cached in the module-global promise. -/
def connectDB1 (outcome : Except String Unit) (s : ConnState) :
    Except String Unit × ConnState × Bool :=
  if s.readyState = 1 then (Except.ok (), s, false)
  else
    match s.connPromise with
    | some r => (r, s, false)
    | none =>
      (outcome,
       ⟨match outcome with | Except.ok _ => 1 | Except.error _ => 0, some outcome⟩,
       true)

/-- Variants 2 and 3 `connectDB` (`src/unnamed/part_000` lines 82-104 and
285-310): return early when connected; await the cached `global._mongoPromise`
when set; otherwise start `mongoose.connect`, cache the promise (whose
`.catch` rethrows, so a rejection is cached) and await it. -/
def connectDB23 (outcome : Except String Unit) (s : ConnState) :
    Except String Unit × ConnState × Bool :=
  if s.readyState = 1 then (Except.ok (), s, false)
  else
    match s.connPromise with
    | some r => (r, s, false)
    | none =>
      (outcome,
       ⟨match outcome with | Except.ok _ => 1 | Except.error _ => 0, some outcome⟩,
       true)

/-- The module state at process start: not connected, no cached promise. -/
def initialConnState : ConnState := ⟨0, none⟩

/-- Run a sequence of sequential `connectDB` calls against step function
`step`.  Before each call the adversarial list `ext` imposes an arbitrary
`readyState` (modelling external mongoose connection-state changes between
requests).  Returns the final state and how many calls invoked
`mongoose.connect`. -/
def countConnectsFrom
    (step : Except String Unit → ConnState → Except String Unit × ConnState × Bool)
    (outcome : Except String Unit) :
    List Nat → ConnState → ConnState × Nat
  | [], s => (s, 0)
  | r :: rest, s =>
    let res := step outcome ⟨r, s.connPromise⟩
    let next := countConnectsFrom step outcome rest res.2.1
    (next.1, (if res.2.2 then 1 else 0) + next.2)

/-- Run `n` sequential `connectDB` calls from process start with no external
interference.  Returns the final state, the number of `mongoose.connect`
invocations, and the result of the last call (`none` when `n = 0`). -/
def runRepeated
    (step : Except String Unit → ConnState → Except String Unit × ConnState × Bool)
    (outcome : Except String Unit) :
    Nat → ConnState × Nat × Option (Except String Unit)
  | 0 => (initialConnState, 0, none)
  | Nat.succ n =>
    let prev := runRepeated step outcome n
    let res := step outcome prev.1
    (res.2.1, prev.2.1 + (if res.2.2 then 1 else 0), some res.1)

/-- Minimal JSON values, enough for the inline route handlers. -/
inductive JVal
  | str (s : String)
  | obj (fields : List (String × JVal))

/-- Body an inline route handler responds with: a fixed JSON value, or a
dynamic body (timestamps, email-service probing, mounted routers). -/
inductive RouteResp
  | json (j : JVal)
  | dynamic

/-- One registration on the Express app, in source order: a router mounted at
a path prefix via `app.use(path, router)`, an inline `app.get(path, handler)`
route, or a plain middleware / non-GET registration. -/
inductive Entry
  | mount (p : String)
  | route (p : String) (r : RouteResp)
  | mw (n : String)

/-- Express prefix matching for `app.use(path, router)`: the request path
starts with the mount path. -/
def pathHasMountPoint (p path : String) : Bool :=
  p.data.isPrefixOf path.data

/-- Walk the registration list in order and return the response of the first
matching mount or GET route, skipping plain middleware. -/
def dispatch (l : List Entry) (method path : String) : Option RouteResp :=
  match l with
  | [] => none
  | Entry.mount p :: rest =>
    if pathHasMountPoint p path then some RouteResp.dynamic
    else dispatch rest method path
  | Entry.route p r :: rest =>
    if method == "GET" && path == p then some r
    else dispatch rest method path
  | Entry.mw _ :: rest => dispatch rest method path

/-- The JSON body of the health endpoint in all variants. -/
def healthBody : JVal := JVal.obj [("status", JVal.str "OK")]

/-- Variant 1 registrations (`src/server.js` lines 44-97), in source order. -/
def routes1 : List Entry :=
  [Entry.mw "cors",
   Entry.mw "optionsCors",
   Entry.mw "corsFallback",
   Entry.mw "json",
   Entry.mw "urlencoded",
   Entry.mw "cookieParser",
   Entry.mw "connectDB",
   Entry.mount "/api/auth",
   Entry.mount "/api/quiz",
   Entry.mount "/api/folders",
   Entry.mount "/api/bookmarks",
   Entry.mount "/api/students",
   Entry.mount "/api/student-quiz",
   Entry.route "/api/health" (RouteResp.json healthBody),
   Entry.mw "notFound",
   Entry.mw "errorHandler"]

/-- Variant 2 registrations (`src/unnamed/part_000` lines 53-151), in source
order. -/
def routes2 : List Entry :=
  [Entry.mw "cors",
   Entry.mw "optionsCors",
   Entry.mw "corsFallback",
   Entry.mw "json",
   Entry.mw "urlencoded",
   Entry.mw "cookieParser",
   Entry.mw "connectDB",
   Entry.mount "/api/auth",
   Entry.mount "/api/quiz",
   Entry.mount "/api/folders",
   Entry.mount "/api/bookmarks",
   Entry.mount "/api/students",
   Entry.mount "/api/student-quiz",
   Entry.route "/api/health" (RouteResp.json healthBody),
   Entry.route "/api/debug/test-nodemailer" RouteResp.dynamic,
   Entry.mw "notFound",
   Entry.mw "errorHandler"]

/-- Variant 3 registrations (`src/unnamed/part_000` lines 220-357), in source
order; the root route's body carries a timestamp, so it is `dynamic`. -/
def routes3 : List Entry :=
  [Entry.mw "originLogger",
   Entry.mw "cors",
   Entry.mw "optionsCors",
   Entry.mw "json",
   Entry.mw "urlencoded",
   Entry.mw "cookieParser",
   Entry.mw "requestLogger",
   Entry.route "/" RouteResp.dynamic,
   Entry.mw "connectDB",
   Entry.mount "/api/auth",
   Entry.mount "/api/quiz",
   Entry.mount "/api/folders",
   Entry.mount "/api/bookmarks",
   Entry.mount "/api/students",
   Entry.mount "/api/student-quiz",
   Entry.route "/api/health" (RouteResp.json healthBody),
   Entry.route "/api/debug/test-nodemailer" RouteResp.dynamic,
   Entry.mw "notFound",
   Entry.mw "errorHandler"]

/-- Mount path prefixes of a registration list, in order. -/
def mountPaths (l : List Entry) : List String :=
  l.filterMap (fun e => match e with | Entry.mount p => some p | _ => none)

/-- Inline GET route paths of a registration list, in order. -/
def getPaths (l : List Entry) : List String :=
  l.filterMap (fun e => match e with | Entry.route p _ => some p | _ => none)

/-- Whether an entry is a mounted router or inline route (as opposed to plain
middleware). -/
def isRouteEntry : Entry → Bool
  | Entry.mount _ => true
  | Entry.route _ _ => true
  | Entry.mw _ => false

/-- Whether an entry is the not-found or error-handling middleware. -/
def isErrorMw : Entry → Bool
  | Entry.mw n => n == "notFound" || n == "errorHandler"
  | _ => false

/-- Names of the not-found / error-handling middleware occurring in a
registration list, in order. -/
def errMwNames (l : List Entry) : List String :=
  l.filterMap (fun e => match e with
    | Entry.mw n => if n == "notFound" || n == "errorHandler" then some n else none
    | _ => none)

/-- Every route registration precedes every not-found / error-handling
middleware registration. -/
@[reducible] def errorMwAfterRoutes (l : List Entry) : Prop :=
  ∀ i j : Fin l.length,
    isRouteEntry (l.get i) = true → isErrorMw (l.get j) = true → i < j

/-- The six API route-module mount prefixes shared by all variants. -/
def apiMounts : List String :=
  ["/api/auth", "/api/quiz", "/api/folders", "/api/bookmarks",
   "/api/students", "/api/student-quiz"]

/-- An environment where only `MONGO_URI` is set. -/
def envMongoOnly : Env := ⟨none, none, none, none, none, some "mongodb://db.example/app"⟩

/-- An environment enabling the vercel-preview wildcard. -/
def envPreview : Env := ⟨none, none, none, some "TRUE", none, none⟩

theorem dropWhile_id_of_forall {α : Type} (p : α → Bool) (l : List α)
    (h : ∀ c ∈ l, p c = false) : l.dropWhile p = l := by
  cases l with
  | nil => rfl
  | cons a t =>
    have ha : p a = false := h a (List.mem_cons_self a t)
    simp [List.dropWhile_cons, ha]

theorem head?_dropWhile_false {α : Type} (p : α → Bool) (l : List α) (x : α)
    (h : (l.dropWhile p).head? = some x) : p x = false := by
  induction l with
  | nil => simp [List.dropWhile] at h
  | cons a t ih =>
    by_cases ha : p a = true
    · rw [List.dropWhile_cons, if_pos ha] at h
      exact ih h
    · rw [List.dropWhile_cons, if_neg ha] at h
      have hx : x = a := by simpa using h.symm
      subst hx
      exact Bool.eq_false_iff.mpr ha

theorem mem_dropWhile_sub {α : Type} (p : α → Bool) (l : List α) (x : α)
    (h : x ∈ l.dropWhile p) : x ∈ l := by
  induction l with
  | nil => simp [List.dropWhile] at h
  | cons a t ih =>
    by_cases ha : p a = true
    · rw [List.dropWhile_cons, if_pos ha] at h
      exact List.mem_cons_of_mem a (ih h)
    · rwa [List.dropWhile_cons, if_neg ha] at h

theorem dropWhile_nil_all {α : Type} (p : α → Bool) (l : List α)
    (h : l.dropWhile p = []) : ∀ x ∈ l, p x = true := by
  induction l with
  | nil => intro x hx; cases hx
  | cons a t ih =>
    by_cases ha : p a = true
    · rw [List.dropWhile_cons, if_pos ha] at h
      intro x hx
      rcases List.mem_cons.mp hx with hxa | hxt
      · rw [hxa]; exact ha
      · exact ih h x hxt
    · rw [List.dropWhile_cons, if_neg ha] at h
      cases h

theorem isPrefixOf_append_self (l t : List Char) : l.isPrefixOf (l ++ t) = true := by
  induction l with
  | nil => simp [List.isPrefixOf]
  | cons a m ih => simp [List.isPrefixOf, ih]

theorem getLast?_append_right {α : Type} (h e : List α) (he : e ≠ []) :
    (h ++ e).getLast? = e.getLast? := by
  have h1 : (h ++ e).reverse.head? = e.reverse.head? := by
    rw [List.reverse_append]
    cases hr : e.reverse with
    | nil => exact absurd (List.reverse_eq_nil_iff.mp hr) he
    | cons a t => simp [hr]
  calc (h ++ e).getLast? = (h ++ e).reverse.head? := (List.head?_reverse _).symm
    _ = e.reverse.head? := h1
    _ = e.getLast? := List.head?_reverse _

theorem trimChars_eq_self (l : List Char)
    (h : ∀ c ∈ l, jsTrimWhitespace c = false) : trimChars l = l := by
  unfold trimChars
  rw [dropWhile_id_of_forall _ l h]
  rw [dropWhile_id_of_forall _ l.reverse (fun c hc => h c (List.mem_reverse.mp hc))]
  exact List.reverse_reverse l

theorem mem_stripTrailingSlashes (l : List Char) (x : Char)
    (h : x ∈ stripTrailingSlashes l) : x ∈ l := by
  unfold stripTrailingSlashes at h
  have := mem_dropWhile_sub _ l.reverse x (List.mem_reverse.mp h)
  exact List.mem_reverse.mp this

theorem stripTrailingSlashes_getLast (l : List Char) (x : Char)
    (h : (stripTrailingSlashes l).getLast? = some x) : (x == '/') = false := by
  unfold stripTrailingSlashes at h
  rw [List.getLast?_reverse] at h
  exact head?_dropWhile_false (fun c => c == '/') l.reverse x h

theorem stripTrailingSlashes_eq_self (l : List Char)
    (h : ∀ x, l.getLast? = some x → (x == '/') = false) :
    stripTrailingSlashes l = l := by
  unfold stripTrailingSlashes
  cases hr : l.reverse with
  | nil =>
    have : l = [] := List.reverse_eq_nil_iff.mp hr
    rw [this]; rfl
  | cons a t =>
    have ha : l.getLast? = some a := by
      rw [← List.head?_reverse, hr]; rfl
    have hne : (a == '/') = false := h a ha
    calc ((a :: t).dropWhile (fun c => c == '/')).reverse
        = (a :: t).reverse := by rw [List.dropWhile_cons, if_neg (by simp [hne])]
      _ = l.reverse.reverse := by rw [hr]
      _ = l := List.reverse_reverse l

theorem stripTrailingSlashes_ne_nil (l : List Char)
    (h : ∃ c ∈ l, (c == '/') = false) : stripTrailingSlashes l ≠ [] := by
  unfold stripTrailingSlashes
  intro hnil
  obtain ⟨c, hc, hcf⟩ := h
  have : l.reverse.dropWhile (fun c => c == '/') = [] := by
    cases hd : l.reverse.dropWhile (fun c => c == '/') with
    | nil => rfl
    | cons a t => rw [hd] at hnil; simp at hnil
  have := dropWhile_nil_all _ l.reverse this c (List.mem_reverse.mpr hc)
  rw [this] at hcf
  cases hcf

theorem lower_https_data : "https://".data.map Char.toLower = "https://".data := by decide

theorem https_data_no_ws : ∀ c ∈ "https://".data, jsTrimWhitespace c = false := by decide

theorem regexHttpTest_append_https (e : List Char) :
    regexHttpTest ("https://".data ++ e) = true := by
  unfold regexHttpTest
  rw [List.map_append, lower_https_data,
    isPrefixOf_append_self "https://".data (e.map Char.toLower)]
  simp

theorem normCore_regex (l m : List Char) (h : normCore l = some m) :
    regexHttpTest m = true := by
  unfold normCore at h
  by_cases hl : l = []
  · rw [if_pos hl] at h; cases h
  · rw [if_neg hl] at h
    by_cases ht : regexHttpTest (stripTrailingSlashes (trimChars l)) = true
    · rw [if_pos ht] at h
      simp only [Option.some.injEq] at h
      rw [← h]
      exact ht
    · rw [if_neg ht] at h
      simp only [Option.some.injEq] at h
      rw [← h]
      exact regexHttpTest_append_https _

theorem normCore_trailing (l m : List Char) (h : normCore l = some m)
    (hl : m.getLast? = some '/') : m = "https://".data := by
  unfold normCore at h
  by_cases h0 : l = []
  · rw [if_pos h0] at h; cases h
  · rw [if_neg h0] at h
    by_cases ht : regexHttpTest (stripTrailingSlashes (trimChars l)) = true
    · rw [if_pos ht] at h
      simp only [Option.some.injEq] at h
      subst h
      have := stripTrailingSlashes_getLast (trimChars l) '/' hl
      simp at this
    · rw [if_neg ht] at h
      simp only [Option.some.injEq] at h
      subst h
      cases he : stripTrailingSlashes (trimChars l) with
      | nil => simp [he]
      | cons a t =>
        have hne : stripTrailingSlashes (trimChars l) ≠ [] := by rw [he]; simp
        rw [getLast?_append_right _ _ hne] at hl
        have := stripTrailingSlashes_getLast (trimChars l) '/' hl
        simp at this

theorem normCore_fix (l m : List Char)
    (hws : ∀ c ∈ l, jsTrimWhitespace c = false)
    (hsl : ∃ c ∈ l, (c == '/') = false)
    (h : normCore l = some m) : normCore m = some m := by
  have hl : l ≠ [] := by
    obtain ⟨c, hc, _⟩ := hsl
    intro h0
    rw [h0] at hc
    cases hc
  have htrim : trimChars l = l := trimChars_eq_self l hws
  have he_ws : ∀ c ∈ stripTrailingSlashes (trimChars l), jsTrimWhitespace c = false := by
    intro c hc
    have hmem : c ∈ trimChars l := mem_stripTrailingSlashes _ c hc
    rw [htrim] at hmem
    exact hws c hmem
  have he_ne : stripTrailingSlashes (trimChars l) ≠ [] := by
    rw [htrim]
    exact stripTrailingSlashes_ne_nil l hsl
  have he_last : ∀ x, (stripTrailingSlashes (trimChars l)).getLast? = some x → (x == '/') = false :=
    fun x hx => stripTrailingSlashes_getLast _ x hx
  have he_fix : stripTrailingSlashes (stripTrailingSlashes (trimChars l)) =
      stripTrailingSlashes (trimChars l) :=
    stripTrailingSlashes_eq_self _ he_last
  have he_trim : trimChars (stripTrailingSlashes (trimChars l)) =
      stripTrailingSlashes (trimChars l) :=
    trimChars_eq_self _ he_ws
  unfold normCore at h
  rw [if_neg hl] at h
  by_cases ht : regexHttpTest (stripTrailingSlashes (trimChars l)) = true
  · rw [if_pos ht] at h
    simp only [Option.some.injEq] at h
    subst h
    unfold normCore
    rw [if_neg he_ne, he_trim, he_fix, if_pos ht]
  · rw [if_neg ht] at h
    simp only [Option.some.injEq] at h
    subst h
    have hm_ne : "https://".data ++ stripTrailingSlashes (trimChars l) ≠ [] := by simp
    have hm_ws : ∀ c ∈ "https://".data ++ stripTrailingSlashes (trimChars l),
        jsTrimWhitespace c = false := by
      intro c hc
      rcases List.mem_append.mp hc with hc1 | hc2
      · exact https_data_no_ws c hc1
      · exact he_ws c hc2
    have hm_trim := trimChars_eq_self _ hm_ws
    have hm_last : ∀ x, ("https://".data ++ stripTrailingSlashes (trimChars l)).getLast? = some x →
        (x == '/') = false := by
      intro x hx
      rw [getLast?_append_right _ _ he_ne] at hx
      exact he_last x hx
    have hm_fix := stripTrailingSlashes_eq_self _ hm_last
    unfold normCore
    rw [if_neg hm_ne, hm_trim, hm_fix, if_pos (regexHttpTest_append_https _)]

theorem mem_filterBoolean (l : List (Option String)) (x : String)
    (h : x ∈ filterBoolean l) : some x ∈ l ∧ x ≠ "" := by
  induction l with
  | nil => cases h
  | cons a t ih =>
    cases a with
    | none =>
      unfold filterBoolean at h
      rcases ih h with ⟨h1, h2⟩
      exact ⟨List.mem_cons_of_mem _ h1, h2⟩
    | some s =>
      unfold filterBoolean at h
      by_cases hs : s = ""
      · rw [if_pos hs] at h
        rcases ih h with ⟨h1, h2⟩
        exact ⟨List.mem_cons_of_mem _ h1, h2⟩
      · rw [if_neg hs] at h
        rcases List.mem_cons.mp h with h1 | h1
        · subst h1
          exact ⟨List.mem_cons_self _ _, hs⟩
        · rcases ih h1 with ⟨ha, hb⟩
          exact ⟨List.mem_cons_of_mem _ ha, hb⟩

theorem mem_dedupAux (l : List String) :
    ∀ (seen : List String) (x : String), x ∈ dedupAux l seen → x ∈ l := by
  induction l with
  | nil => intro seen x h; cases h
  | cons a t ih =>
    intro seen x h
    unfold dedupAux at h
    by_cases ha : a ∈ seen
    · rw [if_pos ha] at h
      exact List.mem_cons_of_mem _ (ih seen x h)
    · rw [if_neg ha] at h
      rcases List.mem_cons.mp h with h1 | h1
      · exact h1 ▸ List.mem_cons_self a t
      · exact List.mem_cons_of_mem _ (ih _ x h1)

theorem nodup_dedupAux (l : List String) :
    ∀ seen, (dedupAux l seen).Nodup ∧ ∀ x ∈ dedupAux l seen, x ∉ seen := by
  induction l with
  | nil =>
    intro seen
    exact ⟨List.nodup_nil, fun x h => absurd h (List.not_mem_nil x)⟩
  | cons a t ih =>
    intro seen
    unfold dedupAux
    by_cases ha : a ∈ seen
    · rw [if_pos ha]
      exact ih seen
    · rw [if_neg ha]
      obtain ⟨hnd, hnm⟩ := ih (a :: seen)
      constructor
      · refine List.nodup_cons.mpr ⟨?_, hnd⟩
        intro hmem
        exact (hnm a hmem) (List.mem_cons_self a seen)
      · intro x hx
        rcases List.mem_cons.mp hx with h1 | h1
        · subst h1; exact ha
        · intro hxs
          exact (hnm x h1) (List.mem_cons_of_mem a hxs)

theorem mem_allowed1_ne_empty (env : Env) (x : String)
    (h : x ∈ allowedOrigins1 env) : x ≠ "" :=
  (mem_filterBoolean _ x h).2

theorem mem_allowed2_ne_empty (env : Env) (x : String)
    (h : x ∈ allowedOrigins2 env) : x ≠ "" :=
  (mem_filterBoolean _ x h).2

theorem mem_allowed3_ne_empty (env : Env) (x : String)
    (h : x ∈ allowedOrigins3 env) : x ≠ "" := by
  unfold allowedOrigins3 dedupFirst at h
  exact (mem_filterBoolean _ x (mem_dedupAux _ [] x h)).2

theorem mem_filterBoolean_of_mem (l : List (Option String)) (x : String)
    (h : some x ∈ l) (hne : x ≠ "") : x ∈ filterBoolean l := by
  induction l with
  | nil => cases h
  | cons a t ih =>
    rcases List.mem_cons.mp h with h1 | h1
    · rw [← h1]
      simp [filterBoolean, hne]
    · cases a with
      | none => exact ih h1
      | some s =>
        by_cases hs : s = ""
        · simp only [filterBoolean, if_pos hs]
          exact ih h1
        · simp only [filterBoolean, if_neg hs]
          exact List.mem_cons_of_mem s (ih h1)

theorem mem_dedupAux_iff (l : List String) :
    ∀ (seen : List String) (x : String),
      x ∈ dedupAux l seen ↔ (x ∈ l ∧ x ∉ seen) := by
  induction l with
  | nil => intro seen x; simp [dedupAux]
  | cons a t ih =>
    intro seen x
    unfold dedupAux
    by_cases ha : a ∈ seen
    · rw [if_pos ha, ih seen x]
      constructor
      · rintro ⟨hx, hs⟩
        exact ⟨List.mem_cons_of_mem a hx, hs⟩
      · rintro ⟨hx, hs⟩
        rcases List.mem_cons.mp hx with h1 | h1
        · subst h1; exact absurd ha hs
        · exact ⟨h1, hs⟩
    · rw [if_neg ha]
      constructor
      · intro hx
        rcases List.mem_cons.mp hx with h1 | h1
        · subst h1; exact ⟨List.mem_cons_self x t, ha⟩
        · obtain ⟨h2, h3⟩ := (ih (a :: seen) x).mp h1
          exact ⟨List.mem_cons_of_mem a h2,
            fun hc => h3 (List.mem_cons_of_mem a hc)⟩
      · rintro ⟨hx, hs⟩
        rcases List.mem_cons.mp hx with h1 | h1
        · subst h1; exact List.mem_cons_self x _
        · by_cases hxa : x = a
          · subst hxa; exact List.mem_cons_self x _
          · refine List.mem_cons_of_mem a ((ih (a :: seen) x).mpr ⟨h1, ?_⟩)
            intro hc
            rcases List.mem_cons.mp hc with h2 | h2
            · exact hxa h2
            · exact hs h2

theorem regexHttpTest_nil : regexHttpTest [] = false := by decide

theorem normCore_ne_nil (l m : List Char) (h : normCore l = some m) : m ≠ [] := by
  unfold normCore at h
  by_cases hl : l = []
  · rw [if_pos hl] at h; cases h
  · rw [if_neg hl] at h
    by_cases ht : regexHttpTest (stripTrailingSlashes (trimChars l)) = true
    · rw [if_pos ht] at h
      simp only [Option.some.injEq] at h
      subst h
      intro hm
      rw [hm, regexHttpTest_nil] at ht
      cases ht
    · rw [if_neg ht] at h
      simp only [Option.some.injEq] at h
      subst h
      simp

theorem normalizeOriginEntry_some (t : Option String) (r : String)
    (h : normalizeOriginEntry t = some r) :
    ∃ s, t = some s ∧ normCore s.data = some r.data := by
  cases t with
  | none => cases h
  | some s =>
    refine ⟨s, rfl, ?_⟩
    cases hc : normCore s.data with
    | none => simp [normalizeOriginEntry, hc] at h
    | some m =>
      simp [normalizeOriginEntry, hc] at h
      rw [← h]

theorem normalizeOriginEntry_ne_empty (t : Option String) (r : String)
    (h : normalizeOriginEntry t = some r) : r ≠ "" := by
  obtain ⟨s, hs, hcore⟩ := normalizeOriginEntry_some t r h
  have hnil := normCore_ne_nil _ _ hcore
  intro hr
  subst hr
  exact hnil rfl

theorem connectDB23_eq_connectDB1 : connectDB23 = connectDB1 := rfl

theorem countConnects_bound (outcome : Except String Unit) :
    ∀ (ext : List Nat) (s : ConnState),
      (countConnectsFrom connectDB1 outcome ext s).2 ≤
        (match s.connPromise with | none => 1 | some _ => 0) := by
  intro ext
  induction ext with
  | nil =>
    intro s
    cases hc : s.connPromise <;> simp [countConnectsFrom]
  | cons r rest ih =>
    intro s
    cases hc : s.connPromise with
    | some v =>
      by_cases hr : r = 1
      · subst hr
        simp [countConnectsFrom, connectDB1, hc]
        simpa using ih ⟨1, some v⟩
      · simp [countConnectsFrom, connectDB1, hr, hc]
        simpa using ih ⟨r, some v⟩
    | none =>
      by_cases hr : r = 1
      · subst hr
        simp [countConnectsFrom, connectDB1, hc]
        simpa using ih ⟨1, none⟩
      · cases outcome with
        | ok u =>
          simp [countConnectsFrom, connectDB1, hr, hc]
          have h2 := ih ⟨1, some (Except.ok u)⟩
          simp at h2
          omega
        | error er =>
          simp [countConnectsFrom, connectDB1, hr, hc]
          have h2 := ih ⟨0, some (Except.error er)⟩
          simp at h2
          omega

/-- C1: Across any sequence of sequential `connectDB` calls in one process
(with arbitrary external `readyState` changes between calls),
`mongoose.connect` is invoked at most once in every variant; once the
module-global promise has been set, a later call (when not already connected)
returns the promise's cached outcome without invoking a new connection; and
when `readyState` is 1 the call returns immediately without connecting at
all. -/
theorem c1_connect_at_most_once (outcome : Except String Unit) (ext : List Nat) :
    (countConnectsFrom connectDB1 outcome ext initialConnState).2 ≤ 1
    ∧ (countConnectsFrom connectDB23 outcome ext initialConnState).2 ≤ 1
    ∧ (∀ (s : ConnState) (r : Except String Unit),
        s.connPromise = some r → s.readyState ≠ 1 →
        connectDB1 outcome s = (r, s, false) ∧ connectDB23 outcome s = (r, s, false))
    ∧ (∀ s : ConnState, s.readyState = 1 →
        connectDB1 outcome s = (Except.ok (), s, false)
        ∧ connectDB23 outcome s = (Except.ok (), s, false)) := by
  refine ⟨?_, ?_, ?_, ?_⟩
  · have h := countConnects_bound outcome ext initialConnState
    simpa [initialConnState] using h
  · rw [connectDB23_eq_connectDB1]
    have h := countConnects_bound outcome ext initialConnState
    simpa [initialConnState] using h
  · intro s r hp hr
    constructor <;> simp [connectDB1, connectDB23, hp, hr]
  · intro s hr
    constructor <;> simp [connectDB1, connectDB23, hr]

theorem c1_witness :
    (countConnectsFrom connectDB1 (Except.ok ()) [0, 0, 0] initialConnState).2 ≤ 1
    ∧ connectDB1 (Except.ok ()) ⟨0, some (Except.error "e")⟩ =
        (Except.error "e", ⟨0, some (Except.error "e")⟩, false) :=
  ⟨(c1_connect_at_most_once (Except.ok ()) [0, 0, 0]).1,
   ((c1_connect_at_most_once (Except.ok ()) []).2.2.1 ⟨0, some (Except.error "e")⟩
      (Except.error "e") rfl (by decide)).1⟩

/-- C2: A request whose Origin header is in the computed allow list gets
`callback(null, true)` from the CORS origin callback of its variant, and the
response carries an `Access-Control-Allow-Origin` header echoing exactly that
origin (via the fallback middleware in variants 1 and 2, and via the `cors`
package's reflect behaviour in all variants) — never a wildcard. -/
theorem c2_allowed_origin_echoed (env : Env) (o : String) :
    (o ∈ allowedOrigins1 env →
      originFn1 env (some o) = CorsDecision.allow
      ∧ fallbackAllowOriginHeader1 env (some o) = some o
      ∧ corsPkgAllowOriginHeader (originFn1 env (some o)) (some o) = some o)
    ∧ (o ∈ allowedOrigins2 env →
      originFn2 env (some o) = CorsDecision.allow
      ∧ fallbackAllowOriginHeader2 env (some o) = some o
      ∧ corsPkgAllowOriginHeader (originFn2 env (some o)) (some o) = some o)
    ∧ (o ∈ allowedOrigins3 env →
      originFn3 env (some o) = CorsDecision.allow
      ∧ corsPkgAllowOriginHeader (originFn3 env (some o)) (some o) = some o) := by
  refine ⟨?_, ?_, ?_⟩
  · intro hm
    have hne := mem_allowed1_ne_empty env o hm
    have hall : originFn1 env (some o) = CorsDecision.allow := by
      simp [originFn1, hne, hm]
    exact ⟨hall, by simp [fallbackAllowOriginHeader1, hne, hm],
      by rw [hall]; simp [corsPkgAllowOriginHeader]⟩
  · intro hm
    have hne := mem_allowed2_ne_empty env o hm
    have hall : originFn2 env (some o) = CorsDecision.allow := by
      simp [originFn2, hne, hm]
    exact ⟨hall, by simp [fallbackAllowOriginHeader2, hne, hm],
      by rw [hall]; simp [corsPkgAllowOriginHeader]⟩
  · intro hm
    have hne := mem_allowed3_ne_empty env o hm
    have hall : originFn3 env (some o) = CorsDecision.allow := by
      simp [originFn3, hne, hm]
    exact ⟨hall, by rw [hall]; simp [corsPkgAllowOriginHeader]⟩

theorem c2_witness :
    originFn3 envEmpty (some "http://localhost:5173") = CorsDecision.allow :=
  ((c2_allowed_origin_echoed envEmpty "http://localhost:5173").2.2 (by decide)).1

/-- C3 counterexample: a request carrying an empty-valued Origin header is not
in any allow list, yet every variant's origin callback allows it (JavaScript
`!origin` treats `""` as absent), contradicting the claim that every request
with an Origin header outside `allowedOrigins` receives the CORS error. -/
theorem c3_counterexample_empty_origin :
    ("" ∉ allowedOrigins1 envEmpty) ∧ ("" ∉ allowedOrigins2 envEmpty)
    ∧ ("" ∉ allowedOrigins3 envEmpty)
    ∧ originFn1 envEmpty (some "") = CorsDecision.allow
    ∧ originFn2 envEmpty (some "") = CorsDecision.allow
    ∧ originFn3 envEmpty (some "") = CorsDecision.allow := by decide

/-- C3 (amended): A request whose Origin header is non-empty and not in the
variant's allow list (and, in the third variant, not accepted by the vercel
preview rule) gets `callback(new Error("Not allowed by CORS"))`, so the
request — preflight included — is handed to the error middleware instead of
being served. -/
theorem c3_blocked_origin_denied (env : Env) (o : String) (hne : o ≠ "") :
    (o ∉ allowedOrigins1 env →
      originFn1 env (some o) = CorsDecision.deny "Not allowed by CORS")
    ∧ (o ∉ allowedOrigins2 env →
      originFn2 env (some o) = CorsDecision.deny "Not allowed by CORS")
    ∧ (o ∉ allowedOrigins3 env →
        (allowVercelPreviews env && vercelPreviewTest o) = false →
        originFn3 env (some o) = CorsDecision.deny "Not allowed by CORS") := by
  refine ⟨?_, ?_, ?_⟩
  · intro hm; simp [originFn1, hne, hm]
  · intro hm; simp [originFn2, hne, hm]
  · intro hm hb; simp [originFn3, hne, hm, hb]

theorem c3_witness :
    originFn1 envEmpty (some "https://evil.example") = CorsDecision.deny "Not allowed by CORS" :=
  (c3_blocked_origin_denied envEmpty "https://evil.example" (by decide)).1 (by decide)

/-- C4: In every variant, dispatching a GET request for `/api/health` through
the registration table reaches the inline handler responding with the JSON
body `{"status": "OK"}`. -/
theorem c4_health_ok :
    dispatch routes1 "GET" "/api/health"
      = some (RouteResp.json (JVal.obj [("status", JVal.str "OK")]))
    ∧ dispatch routes2 "GET" "/api/health"
      = some (RouteResp.json (JVal.obj [("status", JVal.str "OK")]))
    ∧ dispatch routes3 "GET" "/api/health"
      = some (RouteResp.json (JVal.obj [("status", JVal.str "OK")])) :=
  ⟨rfl, rfl, rfl⟩

/-- C5 counterexample: with `MONGODB_URI` unset and `MONGO_URI` set, variant 1
yields `undefined` instead of falling back to `MONGO_URI` (its line 65 reads
only `process.env.MONGODB_URI`), while variants 2 and 3 do fall back — so the
claimed fallback chain does not hold in every variant. -/
theorem c5_counterexample_variant1_no_fallback :
    envMongoOnly.MONGODB_URI = none
    ∧ envMongoOnly.MONGO_URI = some "mongodb://db.example/app"
    ∧ mongoUri1 envMongoOnly = none
    ∧ mongoUri23 envMongoOnly = some "mongodb://db.example/app" := by decide

/-- C5 (amended): Variants 2 and 3 take the connection URI from `MONGODB_URI`
when truthy, else from `MONGO_URI` when truthy, else the literal
`mongodb://localhost:27017/quizapp`; variant 1 uses `MONGODB_URI` alone and
never falls back to `MONGO_URI`. -/
theorem c5_uri_fallback (env : Env) :
    mongoUri1 env = env.MONGODB_URI
    ∧ (jsTruthy env.MONGODB_URI = true → mongoUri23 env = env.MONGODB_URI)
    ∧ (jsTruthy env.MONGODB_URI = false → jsTruthy env.MONGO_URI = true →
        mongoUri23 env = env.MONGO_URI)
    ∧ (jsTruthy env.MONGODB_URI = false → jsTruthy env.MONGO_URI = false →
        mongoUri23 env = some "mongodb://localhost:27017/quizapp") := by
  refine ⟨rfl, ?_, ?_, ?_⟩
  · intro h1; simp [mongoUri23, jsOrStr, h1]
  · intro h1 h2; simp [mongoUri23, jsOrStr, h1, h2]
  · intro h1 h2; simp [mongoUri23, jsOrStr, h1, h2]

theorem c5_witness : mongoUri23 envMongoOnly = envMongoOnly.MONGO_URI :=
  (c5_uri_fallback envMongoOnly).2.2.1 (by decide) (by decide)

/-- C6: In the third variant, an origin outside `allowedOrigins` that matches
the `https://*.vercel.app` pattern is accepted by the origin callback exactly
when `ALLOW_VERCEL_PREVIEWS` case-insensitively equals `"true"` (the
`allowVercelPreviews` flag), and is rejected with the CORS error otherwise. -/
theorem c6_vercel_preview_iff (env : Env) (o : String)
    (h1 : o ∉ allowedOrigins3 env) (h2 : vercelPreviewTest o = true) :
    (originFn3 env (some o) = CorsDecision.allow ↔ allowVercelPreviews env = true)
    ∧ (allowVercelPreviews env = false →
        originFn3 env (some o) = CorsDecision.deny "Not allowed by CORS") := by
  have hne : o ≠ "" := by
    intro h
    rw [h] at h2
    exact absurd h2 (by decide)
  cases haVP : allowVercelPreviews env with
  | true =>
    refine ⟨⟨fun _ => rfl, fun _ => ?_⟩, fun hf => ?_⟩
    · simp [originFn3, hne, h1, haVP, h2]
    · exact Bool.noConfusion hf
  | false =>
    have hd : originFn3 env (some o) = CorsDecision.deny "Not allowed by CORS" := by
      simp [originFn3, hne, h1, haVP, h2]
    refine ⟨⟨fun h => ?_, fun h => ?_⟩, fun _ => hd⟩
    · rw [hd] at h; exact CorsDecision.noConfusion h
    · exact Bool.noConfusion h

theorem c6_witness :
    originFn3 envPreview (some "https://preview-abc.vercel.app") = CorsDecision.allow :=
  (c6_vercel_preview_iff envPreview "https://preview-abc.vercel.app"
    (by decide) (by decide)).1.mpr (by decide)

/-- C7: Every variant mounts routers at exactly the six API prefixes and
registers the inline `/api/health` route; `/` appears only in variant 3 and
`/api/debug/test-nodemailer` only in variants 2 and 3; and in each variant the
not-found and error-handling middleware are registered after all mounts and
routes. -/
theorem c7_route_surface :
    (mountPaths routes1 = apiMounts ∧ mountPaths routes2 = apiMounts
      ∧ mountPaths routes3 = apiMounts)
    ∧ ("/api/health" ∈ getPaths routes1 ∧ "/api/health" ∈ getPaths routes2
      ∧ "/api/health" ∈ getPaths routes3)
    ∧ ("/" ∉ getPaths routes1 ∧ "/" ∉ getPaths routes2 ∧ "/" ∈ getPaths routes3)
    ∧ ("/api/debug/test-nodemailer" ∉ getPaths routes1
      ∧ "/api/debug/test-nodemailer" ∈ getPaths routes2
      ∧ "/api/debug/test-nodemailer" ∈ getPaths routes3)
    ∧ (errMwNames routes1 = ["notFound", "errorHandler"]
      ∧ errMwNames routes2 = ["notFound", "errorHandler"]
      ∧ errMwNames routes3 = ["notFound", "errorHandler"])
    ∧ (errorMwAfterRoutes routes1 ∧ errorMwAfterRoutes routes2
      ∧ errorMwAfterRoutes routes3) := by
  decide

/-- C8: A request with no Origin header is allowed by the CORS origin callback
of every variant: absence of an origin never produces a CORS error. -/
theorem c8_absent_origin_allowed (env : Env) :
    originFn1 env none = CorsDecision.allow
    ∧ originFn2 env none = CorsDecision.allow
    ∧ originFn3 env none = CorsDecision.allow :=
  ⟨rfl, rfl, rfl⟩

/-- C9 counterexample: `normalizeOriginEntry` is not idempotent — on
`"abc /"` it yields `"https://abc "` whose re-normalization trims the exposed
trailing space; on `"/"` it yields `"https://"`, which ends in a slash; and on
`"HTTP://x"` the kept result starts with uppercase `HTTP://`, not literally
`http://` or `https://`. -/
theorem c9_counterexample_normalize :
    normalizeOriginEntry (normalizeOriginEntry (some "abc /"))
      ≠ normalizeOriginEntry (some "abc /")
    ∧ normalizeOriginEntry (some "/") = some "https://"
    ∧ normalizeOriginEntry (some "HTTP://x") = some "HTTP://x" := by decide

/-- C9 (amended): `normalizeOriginEntry` is idempotent on every entry with no
character that JavaScript `trim` strips and at least one non-slash character;
every non-null result starts, case-insensitively, with `http://` or
`https://`; a non-null result ends in a slash only when it is exactly
`"https://"`; and the third variant's `allowedOrigins` consists exactly of the
non-null `normalizeOriginEntry` outputs of raw-allowlist entries (every member
is such an output and every such output is a member), with no duplicates. -/
theorem c9_normalize_amended (env : Env) (s : String)
    (hws : ∀ c ∈ s.data, jsTrimWhitespace c = false)
    (hsl : ∃ c ∈ s.data, (c == '/') = false) :
    normalizeOriginEntry (normalizeOriginEntry (some s)) = normalizeOriginEntry (some s)
    ∧ (∀ (t : Option String) (r : String),
        normalizeOriginEntry t = some r → regexHttpTest r.data = true)
    ∧ (∀ (t : Option String) (r : String),
        normalizeOriginEntry t = some r → r.data.getLast? = some '/' → r = "https://")
    ∧ (∀ x ∈ allowedOrigins3 env, ∃ o ∈ rawAllowlist env, normalizeOriginEntry o = some x)
    ∧ (∀ o ∈ rawAllowlist env, ∀ x : String,
        normalizeOriginEntry o = some x → x ∈ allowedOrigins3 env)
    ∧ (allowedOrigins3 env).Nodup := by
  refine ⟨?_, ?_, ?_, ?_, ?_, ?_⟩
  · cases hc : normCore s.data with
    | none => simp [normalizeOriginEntry, hc]
    | some m =>
      have hfix := normCore_fix s.data m hws hsl hc
      have h1 : normalizeOriginEntry (some s) = some (String.mk m) := by
        simp [normalizeOriginEntry, hc]
      rw [h1]
      show (normCore (String.mk m).data).map String.mk = some (String.mk m)
      have hd : (String.mk m).data = m := rfl
      rw [hd, hfix]
      rfl
  · intro t r h
    obtain ⟨s', hs', hcore⟩ := normalizeOriginEntry_some t r h
    exact normCore_regex _ _ hcore
  · intro t r h hsl'
    obtain ⟨s', hs', hcore⟩ := normalizeOriginEntry_some t r h
    have hdata := normCore_trailing _ _ hcore hsl'
    cases r with
    | mk d => exact congrArg String.mk hdata
  · intro x hx
    unfold allowedOrigins3 dedupFirst at hx
    have h1 := mem_dedupAux _ [] x hx
    obtain ⟨h2, _⟩ := mem_filterBoolean _ x h1
    obtain ⟨o, ho, heq⟩ := List.mem_map.mp h2
    exact ⟨o, ho, heq⟩
  · intro o ho x hx
    have hne := normalizeOriginEntry_ne_empty o x hx
    have h1 : some x ∈ (rawAllowlist env).map normalizeOriginEntry :=
      List.mem_map.mpr ⟨o, ho, hx⟩
    have h2 := mem_filterBoolean_of_mem _ x h1 hne
    unfold allowedOrigins3 dedupFirst
    exact (mem_dedupAux_iff _ [] x).mpr ⟨h2, by simp⟩
  · unfold allowedOrigins3 dedupFirst
    exact (nodup_dedupAux _ []).1

theorem c9_witness :
    normalizeOriginEntry (normalizeOriginEntry (some "example.com"))
      = normalizeOriginEntry (some "example.com") :=
  (c9_normalize_amended envEmpty "example.com" (by decide) (by decide)).1

theorem runRepeated_error_stable (e : String) :
    ∀ m : Nat, runRepeated connectDB1 (Except.error e) (m + 1)
      = (⟨0, some (Except.error e)⟩, 1, some (Except.error e)) := by
  intro m
  induction m with
  | zero => rfl
  | succ k ih =>
    have step : runRepeated connectDB1 (Except.error e) (k + 1 + 1)
        = (let prev := runRepeated connectDB1 (Except.error e) (k + 1)
           let res := connectDB1 (Except.error e) prev.1
           (res.2.1, prev.2.1 + (if res.2.2 then 1 else 0), some res.1)) := rfl
    rw [step, ih]
    rfl

/-- C10: When the single `mongoose.connect` attempt rejects, the module-global
promise caches the rejection: in both `connectDB` implementations, after `n ≥
1` sequential calls the first call has invoked `mongoose.connect` once, every
call (the first included) has rejected with the same error, and no further
`mongoose.connect` invocation ever happens. -/
theorem c10_rejection_cached (e : String) (n : Nat) (hn : 1 ≤ n) :
    runRepeated connectDB1 (Except.error e) n
      = (⟨0, some (Except.error e)⟩, 1, some (Except.error e))
    ∧ runRepeated connectDB23 (Except.error e) n
      = (⟨0, some (Except.error e)⟩, 1, some (Except.error e)) := by
  cases n with
  | zero => exact absurd hn (by decide)
  | succ m =>
    exact ⟨runRepeated_error_stable e m,
      by rw [connectDB23_eq_connectDB1]; exact runRepeated_error_stable e m⟩

theorem c10_witness :
    runRepeated connectDB1 (Except.error "boom") 2
      = (⟨0, some (Except.error "boom")⟩, 1, some (Except.error "boom")) :=
  (c10_rejection_cached "boom" 2 (by decide)).1
